import Mathlib

/-!
Verification of the `PythonHelper` utility facade (`pythonHelper.py`).

The file shallowly embeds the helper methods of the class as executable Lean
functions.  Python dynamic typing is modelled by the `PyVal` type; a Python
exception escaping a method is modelled as `Except.error`; messages written to
the process-wide logger are returned explicitly as a `List LogEntry`.
-/

namespace PyHelper

/-- Level of a message written to the process-wide logging sink. -/
inductive LogLevel where
  | info
  | error
deriving DecidableEq, Repr

/-- One message written to the process-wide logging sink. -/
structure LogEntry where
  level : LogLevel
  msg : String
deriving DecidableEq, Repr

/-- A Python runtime value, restricted to the shapes the helper methods are
exercised with: `None`, booleans, integers, strings and lists.  (Floating
point values are outside the embedding.) -/
inductive PyVal where
  | none
  | bool (b : Bool)
  | int (n : Int)
  | str (s : String)
  | list (xs : List PyVal)
deriving Repr

mutual

/-- Boolean equality test on `PyVal` (Python `==` on the modelled values). -/
def PyVal.beq : PyVal → PyVal → Bool
  | .none, .none => true
  | .bool a, .bool b => a == b
  | .int a, .int b => a == b
  | .str a, .str b => a == b
  | .list xs, .list ys => PyVal.beqL xs ys
  | _, _ => false

/-- Pointwise `PyVal.beq` on lists. -/
def PyVal.beqL : List PyVal → List PyVal → Bool
  | [], [] => true
  | x :: xs, y :: ys => PyVal.beq x y && PyVal.beqL xs ys
  | _, _ => false

end

theorem PyVal.beq_eq : ∀ (a b : PyVal), PyVal.beq a b = true → a = b := by
  have key : ∀ n, (∀ a b : PyVal, sizeOf a ≤ n → PyVal.beq a b = true → a = b) ∧
      (∀ xs ys : List PyVal, sizeOf xs ≤ n → PyVal.beqL xs ys = true → xs = ys) := by
    intro n
    induction n with
    | zero =>
      constructor
      · intro a _ h _; cases a <;> simp_all
      · intro xs _ h _; cases xs <;> simp_all
    | succ n ih =>
      constructor
      · intro a b hs hb
        cases a <;> cases b <;> simp_all [PyVal.beq]
        rename_i xs ys
        have : sizeOf xs ≤ n := by omega
        exact ih.2 xs ys this hb
      · intro xs ys hs hb
        cases xs <;> cases ys <;> simp_all [PyVal.beqL]
        rename_i x xs y ys
        obtain ⟨h1, h2⟩ := hb
        have sx : sizeOf x ≤ n := by omega
        have sxs : sizeOf xs ≤ n := by omega
        exact ⟨ih.1 x y sx h1, ih.2 xs ys sxs h2⟩
  intro a b
  exact (key (sizeOf a)).1 a b le_rfl

theorem PyVal.beq_refl : ∀ (a : PyVal), PyVal.beq a a = true := by
  have key : ∀ n, (∀ a : PyVal, sizeOf a ≤ n → PyVal.beq a a = true) ∧
      (∀ xs : List PyVal, sizeOf xs ≤ n → PyVal.beqL xs xs = true) := by
    intro n
    induction n with
    | zero =>
      constructor
      · intro a h; cases a <;> simp_all
      · intro xs h; cases xs <;> simp_all
    | succ n ih =>
      constructor
      · intro a hs
        cases a <;> simp_all [PyVal.beq]
        rename_i xs
        have : sizeOf xs ≤ n := by omega
        exact ih.2 xs this
      · intro xs hs
        cases xs <;> simp_all [PyVal.beqL]
        rename_i x xs
        have sx : sizeOf x ≤ n := by omega
        have sxs : sizeOf xs ≤ n := by omega
        exact ⟨ih.1 x sx, ih.2 xs sxs⟩
  intro a
  exact (key (sizeOf a)).1 a le_rfl

instance : DecidableEq PyVal := fun a b =>
  decidable_of_iff (PyVal.beq a b = true)
    ⟨PyVal.beq_eq a b, fun h => h ▸ PyVal.beq_refl a⟩

/-- A Python exception escaping to the caller. -/
inductive PyExc where
  | typeError (msg : String)
  | attributeError (msg : String)
  | valueError (msg : String)
  | overflowError (msg : String)
deriving DecidableEq, Repr

/-- `str.upper()` exists only on strings; calling `.upper()` on any other
value raises `AttributeError`.  The embedding restricts case mapping to the
ASCII letters actually exercised by the theorems below. -/
def to_uppercase (text : PyVal) : Except PyExc PyVal :=
  match text with
  | .str s => .ok (.str ⟨s.data.map Char.toUpper⟩)
  | _ => .error (.attributeError "object has no attribute upper")

/-- `str.lower()` analogue of `to_uppercase`. -/
def to_lowercase (text : PyVal) : Except PyExc PyVal :=
  match text with
  | .str s => .ok (.str ⟨s.data.map Char.toLower⟩)
  | _ => .error (.attributeError "object has no attribute lower")

/-- Equality of `Except` results is decidable when both components are;
used by concrete evaluations of the helper methods. -/
instance {ε α : Type} [DecidableEq ε] [DecidableEq α] : DecidableEq (Except ε α) := by
  intro a b
  cases a <;> cases b
  case error.error x y => exact decidable_of_iff (x = y) (by simp)
  case ok.ok x y => exact decidable_of_iff (x = y) (by simp)
  all_goals exact isFalse (by simp)

/-- Whether a value may be placed in a Python `set`: lists are unhashable,
the remaining modelled values are hashable. -/
def PyVal.hashable : PyVal → Bool
  | .list _ => false
  | _ => true

/-- `remove_duplicates(data) = list(set(data))`.  Building the set raises
`TypeError` as soon as some element is unhashable; otherwise the result is a
list of the distinct elements of `data`.  CPython leaves the iteration order
of a `set` unspecified, so the embedding fixes one representative order
(first occurrence); the theorems below use only order-independent facts. -/
def remove_duplicates (data : List PyVal) : Except PyExc (List PyVal) :=
  if data.all PyVal.hashable then .ok data.dedup
  else .error (.typeError "unhashable type")

/-- `string.ascii_letters + string.digits`, the population sampled by
`generate_random_string`. -/
def ascii_letters_digits : List Char :=
  "abcdefghijklmnopqrstuvwxyzABCDEFGHIJKLMNOPQRSTUVWXYZ0123456789".data

/-- `generate_random_string(length)` draws `length` characters from
`ascii_letters_digits` with replacement via `random.choices`.  The random
generator is modelled as an arbitrary function `pick` from draw index to an
index into the population, so every theorem quantifies over all possible
random outcomes. -/
def generate_random_string (length : Nat)
    (pick : Nat → Fin ascii_letters_digits.length) : String :=
  ⟨(List.range length).map (fun i => ascii_letters_digits.get (pick i))⟩

/-- Human-readable text of an exception, used when a caught exception is
interpolated into a log message. -/
def PyExc.text : PyExc → String
  | .typeError m => m
  | .attributeError m => m
  | .valueError m => m
  | .overflowError m => m

/-- A calendar date, the part of a CPython `datetime` observable through the
date-only format directives the helper methods use. -/
structure Date where
  year : Int
  month : Nat
  day : Nat
deriving DecidableEq, Repr

/-- Decimal digit character, for digits below ten. -/
def digChar (d : Nat) : Char := Char.ofNat (48 + d)

/-- Worker for `natDigits`; the first argument is recursion fuel, always
supplied large enough that the fallback first equation is never reached. -/
def natDigitsGo : Nat → Nat → List Char
  | 0, n => [digChar (n % 10)]
  | fuel + 1, n =>
    if n < 10 then [digChar n] else natDigitsGo fuel (n / 10) ++ [digChar (n % 10)]

/-- Decimal digits of a natural number, most significant first
(CPython `str` of a nonnegative `int`). -/
def natDigits (n : Nat) : List Char := natDigitsGo n n

theorem natDigitsGo_irrel (n : Nat) : ∀ f1 f2, n ≤ f1 → n ≤ f2 →
    natDigitsGo f1 n = natDigitsGo f2 n := by
  induction n using Nat.strong_induction_on with
  | _ n ih =>
    intro f1 f2 h1 h2
    match f1, f2 with
    | 0, 0 => rfl
    | 0, f2 + 1 =>
      have : n = 0 := by omega
      subst this
      simp [natDigitsGo]
    | f1 + 1, 0 =>
      have : n = 0 := by omega
      subst this
      simp [natDigitsGo]
    | f1 + 1, f2 + 1 =>
      simp only [natDigitsGo]
      by_cases h : n < 10
      · simp [h]
      · simp only [h, if_false]
        have hd : n / 10 < n := Nat.div_lt_self (by omega) (by omega)
        rw [ih (n / 10) hd f1 f2 (by omega) (by omega)]

theorem natDigits_eq (n : Nat) :
    natDigits n = if n < 10 then [digChar n] else natDigits (n / 10) ++ [digChar (n % 10)] := by
  unfold natDigits
  match n with
  | 0 => simp [natDigitsGo]
  | n + 1 =>
    simp only [natDigitsGo]
    by_cases h : n + 1 < 10
    · simp [h]
    · simp only [h, if_false]
      have hd : (n + 1) / 10 < n + 1 := Nat.div_lt_self (by omega) (by omega)
      rw [natDigitsGo_irrel ((n + 1) / 10) n ((n + 1) / 10) (by omega) le_rfl]

/-- CPython `str` of an `int`, as a character list. -/
def intDigits (n : Int) : List Char :=
  if n < 0 then '-' :: natDigits n.natAbs else natDigits n.toNat

/-- Zero-padded two-digit rendering, as used by the `%m` and `%d`
format directives. -/
def pad2 (n : Nat) : List Char :=
  if n < 10 then ['0', digChar n] else natDigits n

/-- `datetime.strftime` restricted to the date directives `%Y`, `%m`, `%d`
and `%%`; any other character is copied literally (glibc behaviour, which
CPython delegates to on Linux).  `%Y` renders the year without extra
padding, as glibc does. -/
def strftimeGo (d : Date) : List Char → List Char
  | [] => []
  | '%' :: c :: rest =>
    if c = 'Y' then intDigits d.year ++ strftimeGo d rest
    else if c = 'm' then pad2 d.month ++ strftimeGo d rest
    else if c = 'd' then pad2 d.day ++ strftimeGo d rest
    else if c = '%' then '%' :: strftimeGo d rest
    else '%' :: c :: strftimeGo d rest
  | c :: rest => c :: strftimeGo d rest

/-- `datetime.strftime` on strings (see `strftimeGo`). -/
def strftime (d : Date) (fmt : String) : String := ⟨strftimeGo d fmt.data⟩

/-- One token of a `strptime` format string: a literal character or one of
the supported directives. -/
inductive FmtTok where
  | lit (c : Char)
  | dirY
  | dirM
  | dirD
deriving DecidableEq, Repr

/-- Tokenisation of a `strptime` format string.  `Option.none` models the
`ValueError` CPython raises for a bad or stray directive.  The embedding
supports the directives the specification exercises (`%Y`, `%m`, `%d`,
`%%`); an unsupported directive is reported as a bad directive. -/
def parseFormat : List Char → Option (List FmtTok)
  | [] => some []
  | ['%'] => Option.none
  | '%' :: c :: rest =>
    if c = 'Y' then (parseFormat rest).map (FmtTok.dirY :: ·)
    else if c = 'm' then (parseFormat rest).map (FmtTok.dirM :: ·)
    else if c = 'd' then (parseFormat rest).map (FmtTok.dirD :: ·)
    else if c = '%' then (parseFormat rest).map (FmtTok.lit '%' :: ·)
    else Option.none
  | c :: rest => (parseFormat rest).map (FmtTok.lit c :: ·)

/-- Numeric value of a decimal digit character. -/
def digVal (c : Char) : Nat := c.toNat - 48

/-- The `%Y` matcher: exactly four decimal digits
(CPython compiles `%Y` to the regular expression `\d\d\d\d`). -/
def match4Digits : List Char → Option (Nat × List Char)
  | a :: b :: c :: d :: rest =>
    if a.isDigit && b.isDigit && c.isDigit && d.isDigit then
      some (1000 * digVal a + 100 * digVal b + 10 * digVal c + digVal d, rest)
    else Option.none
  | _ => Option.none

/-- The `%m` matcher, following the ordered alternation of the regular
expression CPython compiles for it (`1[0-2]`, then `0[1-9]`, then `[1-9]`);
the embedding commits to the first matching alternative. -/
def matchMonth : List Char → Option (Nat × List Char)
  | [] => Option.none
  | [a] => if '1' ≤ a && a ≤ '9' then some (digVal a, []) else Option.none
  | a :: b :: rest =>
    if a = '1' && ('0' ≤ b && b ≤ '2') then some (10 + digVal b, rest)
    else if a = '0' && ('1' ≤ b && b ≤ '9') then some (digVal b, rest)
    else if '1' ≤ a && a ≤ '9' then some (digVal a, b :: rest)
    else Option.none

/-- The `%d` matcher (regular expression `3[01]`, `[12]\d`, `0[1-9]`,
`[1-9]`, first matching alternative). -/
def matchDay : List Char → Option (Nat × List Char)
  | [] => Option.none
  | [a] => if '1' ≤ a && a ≤ '9' then some (digVal a, []) else Option.none
  | a :: b :: rest =>
    if a = '3' && ('0' ≤ b && b ≤ '1') then some (30 + digVal b, rest)
    else if ('1' ≤ a && a ≤ '2') && b.isDigit then some (10 * digVal a + digVal b, rest)
    else if a = '0' && ('1' ≤ b && b ≤ '9') then some (digVal b, rest)
    else if '1' ≤ a && a ≤ '9' then some (digVal a, b :: rest)
    else Option.none

/-- Fields collected while matching a date string; the defaults are the
CPython `strptime` defaults (year 1900, January the 1st). -/
structure YMD where
  y : Nat := 1900
  m : Nat := 1
  d : Nat := 1
deriving DecidableEq, Repr

/-- Matching a token list against the input, accumulating parsed fields and
returning the unconsumed suffix. -/
def runToks : List FmtTok → List Char → YMD → Option (YMD × List Char)
  | [], s, acc => some (acc, s)
  | FmtTok.lit c :: toks, s, acc =>
    match s with
    | x :: s2 => if x = c then runToks toks s2 acc else Option.none
    | [] => Option.none
  | FmtTok.dirY :: toks, s, acc =>
    match match4Digits s with
    | some (v, s2) => runToks toks s2 { acc with y := v }
    | Option.none => Option.none
  | FmtTok.dirM :: toks, s, acc =>
    match matchMonth s with
    | some (v, s2) => runToks toks s2 { acc with m := v }
    | Option.none => Option.none
  | FmtTok.dirD :: toks, s, acc =>
    match matchDay s with
    | some (v, s2) => runToks toks s2 { acc with d := v }
    | Option.none => Option.none

/-- Gregorian leap-year rule. -/
def isLeap (y : Int) : Bool := y % 4 == 0 && (y % 100 != 0 || y % 400 == 0)

/-- Number of days in a month of a given year. -/
def daysInMonth (y : Int) (m : Nat) : Nat :=
  if m = 2 then (if isLeap y then 29 else 28)
  else if m = 4 ∨ m = 6 ∨ m = 9 ∨ m = 11 then 30
  else 31

/-- `datetime.strptime(dateStr, fmt)`.  Every failure CPython reports for a
string argument is a `ValueError`: a bad directive in the format, input that
does not match, unconverted trailing data, or an out-of-range date.  The
returned `Date` keeps only the fields observable through the supported
output directives. -/
def strptime (dateStr fmt : String) : Except PyExc Date :=
  match parseFormat fmt.data with
  | Option.none => .error (.valueError ("bad directive in format " ++ fmt))
  | some toks =>
    match runToks toks dateStr.data {} with
    | Option.none =>
      .error (.valueError ("time data " ++ dateStr ++ " does not match format " ++ fmt))
    | some (acc, rest) =>
      if rest ≠ [] then .error (.valueError "unconverted data remains")
      else if acc.y = 0 then .error (.valueError "year 0 is out of range")
      else if daysInMonth acc.y acc.m < acc.d then
        .error (.valueError "day is out of range for month")
      else .ok ⟨acc.y, acc.m, acc.d⟩

/-- `convert_date_format(date_str, input_format, output_format)` (defaults in
the source: `%Y-%m-%d` and `%d-%m-%Y`).  The method guards the body with
`except ValueError` only: every parse failure of a *string* argument is a
`ValueError` and is turned into an error log plus `None`, but calling the
method with a non-string first argument raises `TypeError` past the guard. -/
def convert_date_format (dateStr : PyVal) (inputFormat outputFormat : String) :
    Except PyExc (Option String × List LogEntry) :=
  match dateStr with
  | .str s =>
    match strptime s inputFormat with
    | .error e => .ok (Option.none, [⟨.error, "Error in date conversion: " ++ e.text⟩])
    | .ok d => .ok (some (strftime d outputFormat), [])
  | _ => .error (.typeError "strptime() argument 1 must be str, not the given type")

/-- Conversion from a CPython date ordinal (`date.toordinal`, with
0001-01-01 as day one) to its calendar date, via the standard
civil-from-days algorithm; the shift 719163 is the ordinal of 1970-01-01. -/
def civilFromOrdinal (n : Int) : Date :=
  let z2 := (n - 719163) + 719468
  let doe := (z2 % 146097).toNat
  let yoe := (doe - doe / 1460 + doe / 36524 - doe / 146096) / 365
  let y : Int := (yoe : Int) + (z2 / 146097) * 400
  let doy := doe - (365 * yoe + yoe / 4 - yoe / 100)
  let mp := (5 * doy + 2) / 153
  let d := doy - (153 * mp + 2) / 5 + 1
  let m := if mp < 10 then mp + 3 else mp - 9
  ⟨if m ≤ 2 then y + 1 else y, m, d⟩

/-- Smallest ordinal a CPython `datetime` can hold (0001-01-01). -/
def dateMinOrdinal : Int := 1

/-- Largest ordinal a CPython `datetime` can hold (9999-12-31). -/
def dateMaxOrdinal : Int := 3652059

/-- `get_future_date(days)` evaluates
`(datetime.now() + timedelta(days=days)).strftime("%Y-%m-%d")`.  The current
instant is passed in as its date ordinal `nowOrdinal`; adding a whole number
of days never changes the time of day, and `%Y-%m-%d` only observes the
date, so the ordinal captures everything the method can see.  When the sum
leaves the supported range the addition raises `OverflowError`, which the
method does not catch. -/
def get_future_date (nowOrdinal days : Int) : Except PyExc String :=
  let t := nowOrdinal + days
  if t < dateMinOrdinal ∨ dateMaxOrdinal < t then
    .error (.overflowError "date value out of range")
  else .ok (strftime (civilFromOrdinal t) "%Y-%m-%d")

/-- The ASCII apostrophe, written by code point to keep source tokens plain. -/
def sq : String := String.singleton (Char.ofNat 39)

mutual

/-- CPython `str()` of a value, as interpolated into an f-string. -/
def pyStr : PyVal → String
  | .none => "None"
  | .bool b => if b then "True" else "False"
  | .int n => ⟨intDigits n⟩
  | .str s => s
  | .list xs => "[" ++ pyReprList xs ++ "]"

/-- CPython `repr()` of a value (list elements print with `repr`). -/
def pyRepr : PyVal → String
  | .none => "None"
  | .bool b => if b then "True" else "False"
  | .int n => ⟨intDigits n⟩
  | .str s => sq ++ s ++ sq
  | .list xs => "[" ++ pyReprList xs ++ "]"

/-- Comma-separated `repr`s of list elements. -/
def pyReprList : List PyVal → String
  | [] => ""
  | [x] => pyRepr x
  | x :: y :: ys => pyRepr x ++ ", " ++ pyReprList (y :: ys)

end

/-- A pandas `DataFrame` as the helpers observe it: named columns, each an
ordered list of cells; a `Option.none` cell is a missing (`NaN`/`None`)
value.  pandas permits duplicate column labels, so the columns form a list
rather than a map. -/
structure DataFrame where
  cols : List (String × List (Option PyVal))
deriving DecidableEq, Repr

/-- `df.columns`: the column labels. -/
def df_columns (df : DataFrame) : List String := df.cols.map Prod.fst

/-- `Series.fillna` on one cell: a missing cell becomes the fill value, a
present cell is kept. -/
def fillCell (fillValue : PyVal) : Option PyVal → Option PyVal
  | Option.none => some fillValue
  | some v => some v

/-- `fill_missing_values(df, column_name, fill_value)` (source default for
`fill_value`: the string `"Unknown"`).  When the label exists, every column
carrying it has its missing cells replaced in place (with a duplicated
label, pandas fills all of them) and one info message is logged; otherwise
the frame is returned unchanged with no log. -/
def fill_missing_values (df : DataFrame) (columnName : String) (fillValue : PyVal) :
    DataFrame × List LogEntry :=
  if columnName ∈ df_columns df then
    (⟨df.cols.map (fun c =>
        if c.1 = columnName then (c.1, c.2.map (fillCell fillValue)) else c)⟩,
     [⟨.info, "Missing values in column " ++ sq ++ columnName ++ sq ++
        " filled with " ++ sq ++ pyStr fillValue ++ sq⟩])
  else (df, [])

/-- A JSON-compatible Python tree as exchanged with `json.dump` and
`json.load`: `None`, booleans, integers, strings, lists and string-keyed
dicts.  Floating-point scalars are outside the embedding. -/
inductive JValue where
  | null
  | bool (b : Bool)
  | num (n : Int)
  | str (s : String)
  | arr (xs : List JValue)
  | obj (fields : List (String × JValue))
deriving Repr

/-- Hexadecimal digit character (lowercase, as emitted by `json.dump`). -/
def hexDigitChar (d : Nat) : Char :=
  if d < 10 then Char.ofNat (48 + d) else Char.ofNat (87 + d)

/-- Four-digit lowercase hexadecimal rendering, as in a `\uXXXX` escape. -/
def hex4 (n : Nat) : List Char :=
  [hexDigitChar (n / 4096 % 16), hexDigitChar (n / 256 % 16),
   hexDigitChar (n / 16 % 16), hexDigitChar (n % 16)]

/-- `json.dump` escaping of one character with the default
`ensure_ascii=True`: quote, backslash and the short control escapes get a
two-character escape, printable ASCII passes through, and everything else
becomes `\uXXXX` (a surrogate pair beyond the basic plane). -/
def escapeChar (c : Char) : List Char :=
  if c = '"' then ['\\', '"']
  else if c = '\\' then ['\\', '\\']
  else if c.toNat = 8 then ['\\', 'b']
  else if c.toNat = 9 then ['\\', 't']
  else if c.toNat = 10 then ['\\', 'n']
  else if c.toNat = 12 then ['\\', 'f']
  else if c.toNat = 13 then ['\\', 'r']
  else if 32 ≤ c.toNat ∧ c.toNat ≤ 126 then [c]
  else if c.toNat < 65536 then '\\' :: 'u' :: hex4 c.toNat
  else '\\' :: 'u' :: hex4 (55296 + (c.toNat - 65536) / 1024) ++
       '\\' :: 'u' :: hex4 (56320 + (c.toNat - 65536) % 1024)

/-- A serialized JSON string literal, quotes included. -/
def serStr (s : String) : List Char :=
  '"' :: (s.data.map escapeChar).flatten ++ ['"']

/-- `n` spaces of indentation. -/
def nspaces (n : Nat) : List Char := List.replicate n ' '

mutual

/-- `json.dump(v, f, indent=4)` at nesting level `lvl`: four spaces of
indentation per level, items separated by `",\n"`, keys rendered as
`"key": value`, empty containers kept on one line. -/
def serVal (lvl : Nat) : JValue → List Char
  | .null => "null".data
  | .bool true => "true".data
  | .bool false => "false".data
  | .num n => intDigits n
  | .str s => serStr s
  | .arr [] => "[]".data
  | .arr (x :: xs) =>
    '[' :: '\n' :: nspaces (4 * (lvl + 1)) ++ serItems (lvl + 1) (x :: xs) ++
      '\n' :: nspaces (4 * lvl) ++ [']']
  | .obj [] => "{}".data
  | .obj (f :: fs) =>
    '{' :: '\n' :: nspaces (4 * (lvl + 1)) ++ serFields (lvl + 1) (f :: fs) ++
      '\n' :: nspaces (4 * lvl) ++ ['}']

/-- Array items of `serVal`, separated by a comma, a newline and the
current indentation. -/
def serItems (lvl : Nat) : List JValue → List Char
  | [] => []
  | [x] => serVal lvl x
  | x :: y :: ys =>
    serVal lvl x ++ ',' :: '\n' :: nspaces (4 * lvl) ++ serItems lvl (y :: ys)

/-- Object fields of `serVal` (`"key": value` pairs). -/
def serFields (lvl : Nat) : List (String × JValue) → List Char
  | [] => []
  | [f] => serStr f.1 ++ ':' :: ' ' :: serVal lvl f.2
  | f :: g :: gs =>
    serStr f.1 ++ ':' :: ' ' :: serVal lvl f.2 ++
      ',' :: '\n' :: nspaces (4 * lvl) ++ serFields lvl (g :: gs)

end

/-- The exact text `json.dump(data, f, indent=4)` writes. -/
def json_dumps (v : JValue) : String := ⟨serVal 0 v⟩

/-- JSON insignificant whitespace. -/
def isWsChar (c : Char) : Bool := c = ' ' || c = '\t' || c = '\n' || c = '\r'

/-- Drop leading insignificant whitespace. -/
def skipWs : List Char → List Char
  | [] => []
  | c :: rest => if isWsChar c then skipWs rest else c :: rest

/-- The short JSON escapes accepted after a backslash. -/
def escShort (e : Char) : Option Char :=
  if e = '"' then some '"'
  else if e = '\\' then some '\\'
  else if e = '/' then some '/'
  else if e = 'b' then some (Char.ofNat 8)
  else if e = 't' then some (Char.ofNat 9)
  else if e = 'n' then some (Char.ofNat 10)
  else if e = 'f' then some (Char.ofNat 12)
  else if e = 'r' then some (Char.ofNat 13)
  else Option.none

/-- Value of one hexadecimal digit character. -/
def hexVal (c : Char) : Option Nat :=
  if '0' ≤ c ∧ c ≤ '9' then some (c.toNat - 48)
  else if 'a' ≤ c ∧ c ≤ 'f' then some (c.toNat - 87)
  else if 'A' ≤ c ∧ c ≤ 'F' then some (c.toNat - 55)
  else Option.none

/-- Value of a four-digit hexadecimal escape payload. -/
def hex4Val (a b c d : Char) : Option Nat :=
  match hexVal a, hexVal b, hexVal c, hexVal d with
  | some x, some y, some z, some w => some (4096 * x + 256 * y + 16 * z + w)
  | _, _, _, _ => Option.none

/-- Prepend a decoded character to a string-body parse result. -/
def consFst (ch : Char) : Option (List Char × List Char) → Option (List Char × List Char)
  | some (s, r) => some (ch :: s, r)
  | Option.none => Option.none

/-- `json.load` string scanning after the opening quote: plain characters
up to the closing quote, short escapes, `\uXXXX` escapes with surrogate-pair
combination, and rejection of raw control characters (the default
`strict=True`).  A lone surrogate escape is rejected, where CPython would
produce a lone-surrogate string; Lean strings hold only scalar values, and
`json.dump` output never contains one. -/
def parseStrBody : List Char → Option (List Char × List Char)
  | [] => Option.none
  | '"' :: rest => some ([], rest)
  | '\\' :: 'u' :: a :: b :: c :: d :: rest =>
    match hex4Val a b c d with
    | Option.none => Option.none
    | some n =>
      if n < 55296 ∨ 57344 ≤ n then consFst (Char.ofNat n) (parseStrBody rest)
      else if n < 56320 then
        match rest with
        | '\\' :: 'u' :: e :: f :: g :: h :: rest2 =>
          match hex4Val e f g h with
          | some m =>
            if 56320 ≤ m ∧ m < 57344 then
              consFst (Char.ofNat (65536 + (n - 55296) * 1024 + (m - 56320)))
                (parseStrBody rest2)
            else Option.none
          | Option.none => Option.none
        | _ => Option.none
      else Option.none
  | '\\' :: e :: rest =>
    match escShort e with
    | some ch => consFst ch (parseStrBody rest)
    | Option.none => Option.none
  | c :: rest =>
    if 32 ≤ c.toNat ∧ c ≠ '"' ∧ c ≠ '\\' then consFst c (parseStrBody rest)
    else Option.none

/-- Accumulate further decimal digits of a number literal. -/
def parseDigitsAux (acc : Nat) : List Char → Nat × List Char
  | [] => (acc, [])
  | c :: rest =>
    if c.isDigit then parseDigitsAux (10 * acc + (c.toNat - 48)) rest
    else (acc, c :: rest)

/-- A nonempty run of decimal digits.  The number grammar of the embedding
covers the integer literals `json.dump` emits for the modelled trees;
fraction and exponent parts are outside the embedding. -/
def parseNatNum : List Char → Option (Nat × List Char)
  | c :: rest => if c.isDigit then some (parseDigitsAux (c.toNat - 48) rest) else Option.none
  | [] => Option.none

mutual

/-- `json.load` value scanner.  The input position never starts on
whitespace (callers skip it), and the `fuel` argument bounds the recursion
depth; `json_loads` supplies more fuel than any input can consume. -/
def parseVal : Nat → List Char → Option (JValue × List Char)
  | 0, _ => Option.none
  | Nat.succ fuel, s =>
    match s with
    | 'n' :: 'u' :: 'l' :: 'l' :: rest => some (.null, rest)
    | 't' :: 'r' :: 'u' :: 'e' :: rest => some (.bool true, rest)
    | 'f' :: 'a' :: 'l' :: 's' :: 'e' :: rest => some (.bool false, rest)
    | '"' :: rest =>
      match parseStrBody rest with
      | some (cs, r) => some (.str ⟨cs⟩, r)
      | Option.none => Option.none
    | '[' :: rest =>
      match skipWs rest with
      | ']' :: r => some (.arr [], r)
      | r =>
        match parseItems fuel r with
        | some (xs, rr) => some (.arr xs, rr)
        | Option.none => Option.none
    | '{' :: rest =>
      match skipWs rest with
      | '}' :: r => some (.obj [], r)
      | r =>
        match parseFields fuel r with
        | some (fs, rr) => some (.obj fs, rr)
        | Option.none => Option.none
    | '-' :: rest =>
      match parseNatNum rest with
      | some (n, r) => some (.num (-(n : Int)), r)
      | Option.none => Option.none
    | s2 =>
      match parseNatNum s2 with
      | some (n, r) => some (.num (n : Int), r)
      | Option.none => Option.none

/-- Comma-separated array items up to the closing bracket. -/
def parseItems : Nat → List Char → Option (List JValue × List Char)
  | 0, _ => Option.none
  | Nat.succ fuel, s =>
    match parseVal fuel s with
    | Option.none => Option.none
    | some (v, r1) =>
      match skipWs r1 with
      | ',' :: r2 =>
        match parseItems fuel (skipWs r2) with
        | some (xs, rr) => some (v :: xs, rr)
        | Option.none => Option.none
      | ']' :: r2 => some ([v], r2)
      | _ => Option.none

/-- Comma-separated `"key": value` fields up to the closing brace. -/
def parseFields : Nat → List Char → Option (List (String × JValue) × List Char)
  | 0, _ => Option.none
  | Nat.succ fuel, s =>
    match s with
    | '"' :: rest =>
      match parseStrBody rest with
      | Option.none => Option.none
      | some (k, r1) =>
        match skipWs r1 with
        | ':' :: r2 =>
          match parseVal fuel (skipWs r2) with
          | Option.none => Option.none
          | some (v, r3) =>
            match skipWs r3 with
            | ',' :: r4 =>
              match parseFields fuel (skipWs r4) with
              | some (fs, rr) => some ((⟨k⟩, v) :: fs, rr)
              | Option.none => Option.none
            | '}' :: r4 => some ([(⟨k⟩, v)], r4)
            | _ => Option.none
        | _ => Option.none
    | _ => Option.none

end

/-- `json.load` on a whole document: one value surrounded by optional
whitespace, anything further being an error. -/
def json_loads (s : String) : Option JValue :=
  match parseVal (s.length + 1) (skipWs s.data) with
  | some (v, r) => if skipWs r = [] then some v else Option.none
  | Option.none => Option.none

/-- Distinctness of the labels of an object, as holds for the keys of every
Python dict. -/
def distinctKeys : List String → Bool
  | [] => true
  | k :: ks => !(ks.contains k) && distinctKeys ks

mutual

/-- A tree is dict-faithful when every object in it has distinct keys —
exactly the trees that arise from Python dicts. -/
def keysOk : JValue → Bool
  | .null => true
  | .bool _ => true
  | .num _ => true
  | .str _ => true
  | .arr xs => keysOkL xs
  | .obj fs => distinctKeys (fs.map Prod.fst) && keysOkF fs

/-- `keysOk` on every element. -/
def keysOkL : List JValue → Bool
  | [] => true
  | x :: xs => keysOk x && keysOkL xs

/-- `keysOk` on every field value. -/
def keysOkF : List (String × JValue) → Bool
  | [] => true
  | f :: fs => keysOk f.2 && keysOkF fs

end

/-- The file system as the JSON helpers observe it: text contents by path. -/
def FileSystem := String → Option String

/-- `write_json(file_path, data)`: serializes with `indent=4`, overwrites
the file and logs an info message with the path.  (The embedded file system
always accepts the write; the error branch of the source is the I/O failure
path, which the round-trip claim does not exercise.) -/
def write_json (fs : FileSystem) (filePath : String) (data : JValue) :
    FileSystem × List LogEntry :=
  (fun p => if p = filePath then some (json_dumps data) else fs p,
   [⟨.info, "JSON file saved: " ++ filePath⟩])

/-- `read_json(file_path)`: parses the file contents; a missing file or a
parse failure is logged as an error and yields `None`. -/
def read_json (fs : FileSystem) (filePath : String) : Option JValue × List LogEntry :=
  match fs filePath with
  | Option.none => (Option.none, [⟨.error, "Error reading JSON file: file not found"⟩])
  | some content =>
    match json_loads content with
    | some v => (some v, [])
    | Option.none => (Option.none, [⟨.error, "Error reading JSON file: parse error"⟩])

/-- The response body the network hands back: either text that parses as
JSON, or text that does not. -/
inductive HttpBody where
  | jsonBody (v : JValue)
  | rawBody

/-- Everything `requests.get`/`requests.post` can come back with: a failure
to connect, an expired timeout, or a response with a status code and a
body.  `raise_for_status` raises exactly for status codes 400–599, and
`response.json()` on an unparseable body raises
`requests.exceptions.JSONDecodeError`, a `RequestException` subclass — so
all three error classes fall under the method's `except` clause. -/
inductive NetOutcome where
  | connectionFailure
  | timeoutExpired
  | response (status : Nat) (body : HttpBody)

/-- The outcomes the specification counts as network errors: connection
failure, timeout, an HTTP error status (4xx/5xx) and a non-JSON body. -/
def errorOutcome : NetOutcome → Bool
  | .connectionFailure => true
  | .timeoutExpired => true
  | .response status body =>
    (400 ≤ status && status < 600) ||
      (match body with | .rawBody => true | .jsonBody _ => false)

/-- `send_get_request(url, params, headers)`.  The `outcome` argument is
what the network did with the request; the method maps every caught
`RequestException` to an error log plus `None` and otherwise returns the
parsed body. -/
def send_get_request (url : String) (params headers : Option (List (String × String)))
    (outcome : NetOutcome) : Option JValue × List LogEntry :=
  match outcome with
  | .connectionFailure =>
    (Option.none, [⟨.error, "GET request error: failed to establish a connection to " ++ url⟩])
  | .timeoutExpired => (Option.none, [⟨.error, "GET request error: request timed out"⟩])
  | .response status body =>
    if 400 ≤ status ∧ status < 600 then
      (Option.none, [⟨.error, "GET request error: HTTP status " ++ ⟨natDigits status⟩⟩])
    else
      match body with
      | .jsonBody v => (some v, [])
      | .rawBody => (Option.none, [⟨.error, "GET request error: response body is not valid JSON"⟩])

/-- `send_post_request(url, data, headers)`; same failure policy as
`send_get_request`, with `data` serialized as the JSON request payload. -/
def send_post_request (url : String) (data : Option JValue)
    (headers : Option (List (String × String)))
    (outcome : NetOutcome) : Option JValue × List LogEntry :=
  match outcome with
  | .connectionFailure =>
    (Option.none, [⟨.error, "POST request error: failed to establish a connection to " ++ url⟩])
  | .timeoutExpired => (Option.none, [⟨.error, "POST request error: request timed out"⟩])
  | .response status body =>
    if 400 ≤ status ∧ status < 600 then
      (Option.none, [⟨.error, "POST request error: HTTP status " ++ ⟨natDigits status⟩⟩])
    else
      match body with
      | .jsonBody v => (some v, [])
      | .rawBody => (Option.none, [⟨.error, "POST request error: response body is not valid JSON"⟩])

mutual

/-- A lower bound on the parser fuel sufficient to re-read a serialized
value; `json_loads` always supplies at least the document length plus one,
which dominates it. -/
def jfuel : JValue → Nat
  | .null => 1
  | .bool _ => 1
  | .num _ => 1
  | .str _ => 1
  | .arr [] => 1
  | .arr (x :: xs) => 1 + jfuelL (x :: xs)
  | .obj [] => 1
  | .obj (f :: fs) => 1 + jfuelF (f :: fs)

/-- `jfuel` tally over array items. -/
def jfuelL : List JValue → Nat
  | [] => 0
  | x :: xs => 1 + jfuel x + jfuelL xs

/-- `jfuel` tally over object fields. -/
def jfuelF : List (String × JValue) → Nat
  | [] => 0
  | f :: fs => 1 + jfuel f.2 + jfuelF fs

end

/-- The text that follows a serialized value never starts with a digit, so
a number literal cannot leak into it. -/
def noDigitHead (l : List Char) : Prop :=
  ∀ c, l.head? = some c → c.isDigit = false

/-! ## Theorems about the helper methods -/

/-- Every character of the sampled population is a letter or a digit. -/
theorem ascii_letters_digits_alnum :
    ∀ c ∈ ascii_letters_digits, (c.isAlpha || c.isDigit) = true := by decide

/-- Claim C1 counterexample: `to_uppercase(None)` raises `AttributeError` to
the caller — the method has no handler at all, so the facade-wide
"no exception ever propagates" contract fails. -/
theorem to_uppercase_raises_on_none :
    to_uppercase PyVal.none = .error (.attributeError "object has no attribute upper") := rfl

/-- Claim C1 (amended): on arguments of the documented types — strings for
case and date conversion, hashable elements for deduplication — the helper
methods never let an exception propagate: `to_uppercase` and
`remove_duplicates` cannot fail there, and `convert_date_format` catches
the `ValueError` that every parse failure of a string raises. -/
theorem typed_inputs_never_raise :
    (∀ s : String, ∃ r, to_uppercase (.str s) = .ok r) ∧
    (∀ data : List PyVal, (∀ v ∈ data, PyVal.hashable v = true) →
      ∃ l, remove_duplicates data = .ok l) ∧
    (∀ text inFmt outFmt : String, ∃ res, convert_date_format (.str text) inFmt outFmt = .ok res) := by
  refine ⟨fun s => ⟨_, rfl⟩, fun data h => ⟨data.dedup, ?_⟩, fun text inFmt outFmt => ?_⟩
  · unfold remove_duplicates
    rw [if_pos (List.all_eq_true.mpr h)]
  · cases h : strptime text inFmt with
    | error e =>
      exact ⟨(Option.none, [⟨LogLevel.error, "Error in date conversion: " ++ e.text⟩]),
        by simp only [convert_date_format, h]⟩
    | ok d =>
      exact ⟨(some (strftime d outFmt), []), by simp only [convert_date_format, h]⟩

/-- Concrete instance of `typed_inputs_never_raise`. -/
theorem typed_inputs_never_raise_witness :
    (∃ r, to_uppercase (.str "abc") = .ok r) ∧
    (∀ v ∈ [PyVal.int 1, PyVal.int 1], PyVal.hashable v = true) ∧
    (∃ l, remove_duplicates [PyVal.int 1, PyVal.int 1] = .ok l) ∧
    (∃ res, convert_date_format (.str "nope") "%Y" "%d" = .ok res) :=
  ⟨typed_inputs_never_raise.1 "abc", by decide,
   typed_inputs_never_raise.2.1 _ (by decide),
   typed_inputs_never_raise.2.2 "nope" "%Y" "%d"⟩

/-- Claim C3: a date string that does not parse against the input format
makes `convert_date_format` log one error-level message and return `None`
— no exception reaches the caller. -/
theorem convert_date_format_parse_failure (text inFmt outFmt : String) (e : PyExc)
    (h : strptime text inFmt = .error e) :
    convert_date_format (.str text) inFmt outFmt =
      .ok (Option.none, [⟨LogLevel.error, "Error in date conversion: " ++ e.text⟩]) := by
  simp only [convert_date_format, h]

/-- The particular instance of claim C3: `"not-a-date"` against
`"%Y-%m-%d"`. -/
theorem convert_date_format_parse_failure_witness :
    strptime "not-a-date" "%Y-%m-%d" =
      .error (.valueError "time data not-a-date does not match format %Y-%m-%d") ∧
    convert_date_format (.str "not-a-date") "%Y-%m-%d" "%d-%m-%Y" =
      .ok (Option.none, [⟨LogLevel.error,
        "Error in date conversion: time data not-a-date does not match format %Y-%m-%d"⟩]) :=
  ⟨rfl, by
    rw [convert_date_format_parse_failure "not-a-date" "%Y-%m-%d" "%d-%m-%Y"
      (.valueError "time data not-a-date does not match format %Y-%m-%d") rfl]
    rfl⟩

/-- Claim C8: a date string that parses against the input format is
re-rendered with the output format, with nothing logged. -/
theorem convert_date_format_success (text inFmt outFmt : String) (d : Date)
    (h : strptime text inFmt = .ok d) :
    convert_date_format (.str text) inFmt outFmt = .ok (some (strftime d outFmt), []) := by
  simp only [convert_date_format, h]

/-- The particular instance of claim C8:
`convert_date_format("2024-01-15", "%Y-%m-%d", "%d-%m-%Y") = "15-01-2024"`. -/
theorem convert_date_format_success_witness :
    strptime "2024-01-15" "%Y-%m-%d" = .ok ⟨2024, 1, 15⟩ ∧
    convert_date_format (.str "2024-01-15") "%Y-%m-%d" "%d-%m-%Y" =
      .ok (some "15-01-2024", []) :=
  ⟨rfl, by
    rw [convert_date_format_success "2024-01-15" "%Y-%m-%d" "%d-%m-%Y" ⟨2024, 1, 15⟩ rfl]
    rfl⟩

/-- Claim C6 counterexample: on a sequence with an unhashable element,
`remove_duplicates` raises `TypeError` instead of returning a collection,
so the unrestricted "for every sequence" reading fails. -/
theorem remove_duplicates_raises_on_unhashable :
    remove_duplicates [PyVal.list []] = Except.error (PyExc.typeError "unhashable type") := rfl

/-- Claim C6 (amended): for every sequence of hashable elements,
`remove_duplicates` returns a duplicate-free collection with exactly the
elements of the input. -/
theorem remove_duplicates_distinct (data : List PyVal)
    (h : ∀ v ∈ data, PyVal.hashable v = true) :
    ∃ l, remove_duplicates data = .ok l ∧ l.Nodup ∧ (∀ a, a ∈ l ↔ a ∈ data) := by
  refine ⟨data.dedup, ?_, data.nodup_dedup, fun a => List.mem_dedup⟩
  unfold remove_duplicates
  rw [if_pos (List.all_eq_true.mpr h)]

/-- The particular instance of claim C6: `[1,2,2,3,3,3]` deduplicates to a
three-element collection holding exactly 1, 2 and 3. -/
theorem remove_duplicates_distinct_witness :
    (∀ v ∈ [PyVal.int 1, PyVal.int 2, PyVal.int 2, PyVal.int 3, PyVal.int 3, PyVal.int 3],
      PyVal.hashable v = true) ∧
    (∃ l, remove_duplicates
        [PyVal.int 1, PyVal.int 2, PyVal.int 2, PyVal.int 3, PyVal.int 3, PyVal.int 3] = .ok l ∧
      l.Nodup ∧
      (∀ a, a ∈ l ↔
        a ∈ [PyVal.int 1, PyVal.int 2, PyVal.int 2, PyVal.int 3, PyVal.int 3, PyVal.int 3])) ∧
    remove_duplicates
        [PyVal.int 1, PyVal.int 2, PyVal.int 2, PyVal.int 3, PyVal.int 3, PyVal.int 3] =
      .ok [PyVal.int 1, PyVal.int 2, PyVal.int 3] :=
  ⟨by decide, remove_duplicates_distinct _ (by decide), rfl⟩

/-- Claim C7: for every positive length and every behaviour of the random
generator, `generate_random_string` returns exactly `length` characters,
each an ASCII letter or digit. -/
theorem generate_random_string_spec (length : Nat)
    (pick : Nat → Fin ascii_letters_digits.length) (h : 0 < length) :
    (generate_random_string length pick).length = length ∧
    ∀ c ∈ (generate_random_string length pick).data, (c.isAlpha || c.isDigit) = true := by
  constructor
  · simp [generate_random_string, String.length]
  · intro c hc
    simp only [generate_random_string] at hc
    obtain ⟨i, _, rfl⟩ := List.mem_map.mp hc
    exact ascii_letters_digits_alnum _
      (List.get_mem ascii_letters_digits (pick i).1 (pick i).2)

/-- When the label exists, the fill touches each column by label only. -/
theorem fill_cols_get (df : DataFrame) (col : String) (fv : PyVal)
    (hmem : col ∈ df_columns df) (i : Nat) (n : String) (cs : List (Option PyVal))
    (hi : df.cols[i]? = some (n, cs)) :
    (fill_missing_values df col fv).1.cols[i]? =
      some (n, if n = col then cs.map (fillCell fv) else cs) := by
  simp only [fill_missing_values, if_pos hmem, List.getElem?_map, hi, Option.map_some']
  by_cases hcol : n = col <;> simp [hcol]

/-- When the label exists, exactly the info message of the source is
logged. -/
theorem fill_log (df : DataFrame) (col : String) (fv : PyVal)
    (hmem : col ∈ df_columns df) :
    (fill_missing_values df col fv).2 =
      [⟨LogLevel.info, "Missing values in column " ++ sq ++ col ++ sq ++
        " filled with " ++ sq ++ pyStr fv ++ sq⟩] := by
  simp only [fill_missing_values, if_pos hmem]

/-- When the label does not exist the frame comes back unchanged, with
nothing logged. -/
theorem fill_absent (df : DataFrame) (col : String) (fv : PyVal)
    (hmem : col ∉ df_columns df) :
    fill_missing_values df col fv = (df, []) := by
  simp only [fill_missing_values, if_neg hmem]

/-- Claim C5: when the named column exists, `fill_missing_values` replaces
the missing cells of that column by the fill value and logs one info
message naming the column and the fill value; when it does not exist, the
frame is returned unchanged without error or log. -/
theorem fill_missing_values_spec (df : DataFrame) (col : String) (fv : PyVal) :
    (col ∉ df_columns df → fill_missing_values df col fv = (df, [])) ∧
    (col ∈ df_columns df →
      (fill_missing_values df col fv).2 =
        [⟨LogLevel.info, "Missing values in column " ++ sq ++ col ++ sq ++
          " filled with " ++ sq ++ pyStr fv ++ sq⟩] ∧
      ∀ (i : Nat) (n : String) (cs : List (Option PyVal)), df.cols[i]? = some (n, cs) →
        ∃ cs2 : List (Option PyVal),
          (fill_missing_values df col fv).1.cols[i]? = some (n, cs2) ∧
          cs2.length = cs.length ∧
          (n = col → ∀ j : Nat, cs[j]? = some Option.none → cs2[j]? = some (some fv))) := by
  by_cases hmem : col ∈ df_columns df
  · refine ⟨fun h => absurd hmem h, fun _ => ⟨fill_log df col fv hmem, ?_⟩⟩
    intro i n cs hi
    rw [fill_cols_get df col fv hmem i n cs hi]
    by_cases hcol : n = col
    · rw [if_pos hcol]
      refine ⟨cs.map (fillCell fv), rfl, by simp, fun _ j hj => ?_⟩
      simp [List.getElem?_map, hj, fillCell]
    · rw [if_neg hcol]
      exact ⟨cs, rfl, rfl, fun h => absurd h hcol⟩
  · exact ⟨fun _ => fill_absent df col fv hmem, fun h => absurd h hmem⟩

/-- Concrete instance of `fill_missing_values_spec`: a frame with a
"status" column whose missing cell becomes "Unknown", and a miss on a
nonexistent column. -/
theorem fill_missing_values_spec_witness :
    ("status" ∈ df_columns ⟨[("status", [Option.none, some (.str "ok")])]⟩) ∧
    (fill_missing_values ⟨[("status", [Option.none, some (.str "ok")])]⟩ "status"
        (.str "Unknown")).2 =
      [⟨LogLevel.info, "Missing values in column " ++ sq ++ "status" ++ sq ++
        " filled with " ++ sq ++ pyStr (.str "Unknown") ++ sq⟩] ∧
    (∃ cs2 : List (Option PyVal),
        (fill_missing_values ⟨[("status", [Option.none, some (.str "ok")])]⟩ "status"
          (.str "Unknown")).1.cols[0]? = some ("status", cs2) ∧
        cs2[0]? = some (some (.str "Unknown"))) ∧
    fill_missing_values ⟨[("status", [Option.none, some (.str "ok")])]⟩ "nope"
        (.str "Unknown") =
      (⟨[("status", [Option.none, some (.str "ok")])]⟩, []) := by
  have hmem : "status" ∈ df_columns ⟨[("status", [Option.none, some (.str "ok")])]⟩ := by decide
  have h := fill_missing_values_spec ⟨[("status", [Option.none, some (.str "ok")])]⟩
    "status" (.str "Unknown")
  obtain ⟨hlog, hcells⟩ := h.2 hmem
  obtain ⟨cs2, hc1, _, hc3⟩ := hcells 0 "status" [Option.none, some (.str "ok")] rfl
  refine ⟨hmem, hlog, ⟨cs2, hc1, hc3 rfl 0 rfl⟩, ?_⟩
  exact (fill_missing_values_spec _ "nope" (.str "Unknown")).1 (by decide)

/-- Claim C10 (frame property): `fill_missing_values` keeps the column
structure, leaves every column not carrying the given label unchanged, and
never modifies a cell that is present — only missing cells of the named
column can change. -/
theorem fill_missing_values_frame (df : DataFrame) (col : String) (fv : PyVal) :
    (fill_missing_values df col fv).1.cols.length = df.cols.length ∧
    ∀ (i : Nat) (n : String) (cs : List (Option PyVal)), df.cols[i]? = some (n, cs) →
      ∃ cs2 : List (Option PyVal),
        (fill_missing_values df col fv).1.cols[i]? = some (n, cs2) ∧
        (n ≠ col → cs2 = cs) ∧
        ∀ (j : Nat) (v : PyVal), cs[j]? = some (some v) → cs2[j]? = some (some v) := by
  by_cases hmem : col ∈ df_columns df
  · refine ⟨by simp [fill_missing_values, if_pos hmem], fun i n cs hi => ?_⟩
    rw [fill_cols_get df col fv hmem i n cs hi]
    by_cases hcol : n = col
    · rw [if_pos hcol]
      refine ⟨cs.map (fillCell fv), rfl, fun hne => absurd hcol hne, fun j v hj => ?_⟩
      simp [List.getElem?_map, hj, fillCell]
    · rw [if_neg hcol]
      exact ⟨cs, rfl, fun _ => rfl, fun j v hj => hj⟩
  · rw [fill_absent df col fv hmem]
    exact ⟨rfl, fun i n cs hi => ⟨cs, hi, fun _ => rfl, fun j v hj => hj⟩⟩

/-- Concrete instance of `fill_missing_values_frame`: the "id" column and
the present "status" cell survive a fill on "status" untouched. -/
theorem fill_missing_values_frame_witness :
    ∃ cs2 : List (Option PyVal),
      (fill_missing_values ⟨[("status", [some (.str "ok"), Option.none]),
          ("id", [some (.int 1), some (.int 2)])]⟩ "status" (.str "Unknown")).1.cols[1]? =
        some ("id", cs2) ∧
      cs2 = [some (.int 1), some (.int 2)] ∧
      (fill_missing_values ⟨[("status", [some (.str "ok"), Option.none]),
          ("id", [some (.int 1), some (.int 2)])]⟩ "status" (.str "Unknown")).1.cols[0]? =
        some ("status", [some (.str "ok"), some (.str "Unknown")]) := by
  obtain ⟨cs2, h1, h2, _⟩ :=
    (fill_missing_values_frame ⟨[("status", [some (.str "ok"), Option.none]),
      ("id", [some (.int 1), some (.int 2)])]⟩ "status" (.str "Unknown")).2
      1 "id" [some (.int 1), some (.int 2)] rfl
  exact ⟨cs2, h1, h2 (by decide), rfl⟩

/-- Claim C2 counterexample: `raise_for_status` raises only for statuses
400–599, so a 304 response carrying a JSON body is returned as a success
even though 304 is not a 2xx status — "every non-2xx status maps to
Failure" fails on the code. -/
theorem send_get_not_failure_on_304 :
    send_get_request "http://host/api" Option.none Option.none
        (.response 304 (.jsonBody (.num 1))) = (some (.num 1), []) ∧
    ¬ (200 ≤ 304 ∧ 304 < 300) :=
  ⟨rfl, by omega⟩

/-- Claim C2 (amended): connection errors, timeouts, 4xx/5xx statuses and
non-JSON bodies all collapse to the same absent value plus one error-level
log line, for GET and POST alike — the return value never distinguishes
the error class. -/
theorem network_errors_uniform_failure (url : String)
    (params headers : Option (List (String × String))) (data : Option JValue)
    (o : NetOutcome) (h : errorOutcome o = true) :
    ((send_get_request url params headers o).1 = Option.none ∧
      ∃ m, (send_get_request url params headers o).2 = [⟨LogLevel.error, m⟩]) ∧
    ((send_post_request url data headers o).1 = Option.none ∧
      ∃ m, (send_post_request url data headers o).2 = [⟨LogLevel.error, m⟩]) := by
  cases o with
  | connectionFailure => exact ⟨⟨rfl, ⟨_, rfl⟩⟩, ⟨rfl, ⟨_, rfl⟩⟩⟩
  | timeoutExpired => exact ⟨⟨rfl, ⟨_, rfl⟩⟩, ⟨rfl, ⟨_, rfl⟩⟩⟩
  | response status body =>
    by_cases hs : 400 ≤ status ∧ status < 600
    · refine ⟨⟨?_, ⟨"GET request error: HTTP status " ++ ⟨natDigits status⟩, ?_⟩⟩,
        ⟨?_, ⟨"POST request error: HTTP status " ++ ⟨natDigits status⟩, ?_⟩⟩⟩ <;>
        simp [send_get_request, send_post_request, if_pos hs]
    · cases body with
      | jsonBody v =>
        exfalso
        simp only [errorOutcome, Bool.or_eq_true, decide_eq_true_eq,
          Bool.and_eq_true] at h
        rcases h with h | h
        · exact hs ⟨by simpa using h.1, by simpa using h.2⟩
        · exact Bool.noConfusion h
      | rawBody =>
        refine ⟨⟨?_, ⟨"GET request error: response body is not valid JSON", ?_⟩⟩,
          ⟨?_, ⟨"POST request error: response body is not valid JSON", ?_⟩⟩⟩ <;>
          simp [send_get_request, send_post_request, if_neg hs]

/-- Concrete instance of `network_errors_uniform_failure`: a timeout. -/
theorem network_errors_uniform_failure_witness :
    errorOutcome NetOutcome.timeoutExpired = true ∧
    (((send_get_request "http://h" Option.none Option.none NetOutcome.timeoutExpired).1 =
        Option.none ∧
      ∃ m, (send_get_request "http://h" Option.none Option.none
        NetOutcome.timeoutExpired).2 = [⟨LogLevel.error, m⟩]) ∧
     ((send_post_request "http://h" Option.none Option.none NetOutcome.timeoutExpired).1 =
        Option.none ∧
      ∃ m, (send_post_request "http://h" Option.none Option.none
        NetOutcome.timeoutExpired).2 = [⟨LogLevel.error, m⟩])) :=
  ⟨rfl, network_errors_uniform_failure "http://h" Option.none Option.none Option.none
    NetOutcome.timeoutExpired rfl⟩

/-- The civil-from-days algorithm always produces a month in 1..12 and a
day in 1..31. -/
theorem civil_bounds (n : Int) :
    1 ≤ (civilFromOrdinal n).month ∧ (civilFromOrdinal n).month ≤ 12 ∧
    1 ≤ (civilFromOrdinal n).day ∧ (civilFromOrdinal n).day ≤ 31 := by
  unfold civilFromOrdinal
  dsimp only
  split <;> omega

/-- The character of a digit below ten is a decimal digit character. -/
theorem digChar_isDigit (d : Nat) (h : d < 10) : (digChar d).isDigit = true := by
  interval_cases d <;> decide

/-- A four-digit number renders as its four digit characters. -/
theorem natDigits4 (n : Nat) (h1 : 1000 ≤ n) (h2 : n ≤ 9999) :
    natDigits n = [digChar (n / 10 / 10 / 10), digChar (n / 10 / 10 % 10),
      digChar (n / 10 % 10), digChar (n % 10)] := by
  rw [natDigits_eq, if_neg (by omega), natDigits_eq, if_neg (by omega),
    natDigits_eq, if_neg (by omega), natDigits_eq, if_pos (by omega)]
  simp

/-- `pad2` of a value up to 99 is two digit characters. -/
theorem pad2_shape (m : Nat) (h2 : m ≤ 99) :
    ∃ a b, pad2 m = [a, b] ∧ a.isDigit = true ∧ b.isDigit = true := by
  unfold pad2
  by_cases h : m < 10
  · rw [if_pos h]
    exact ⟨'0', digChar m, rfl, rfl, digChar_isDigit m h⟩
  · rw [if_neg h, natDigits_eq, if_neg h, natDigits_eq, if_pos (by omega)]
    exact ⟨digChar (m / 10), digChar (m % 10), by simp,
      digChar_isDigit _ (by omega), digChar_isDigit _ (by omega)⟩

/-- Expansion of the `%Y-%m-%d` rendering. -/
theorem strftime_ymd (d : Date) :
    (strftime d "%Y-%m-%d").data =
      intDigits d.year ++ '-' :: (pad2 d.month ++ '-' :: pad2 d.day) := by
  simp [strftime, strftimeGo]

/-- Claim C9 counterexample: a `days` offset that moves the current date
out of the supported range makes `get_future_date` raise `OverflowError`
instead of returning a string, so the unrestricted "for every integer
days" reading fails. -/
theorem get_future_date_overflow :
    get_future_date 738900 (-4000000) = .error (.overflowError "date value out of range") ∧
    ∀ s : String, get_future_date 738900 (-4000000) ≠ .ok s := by
  refine ⟨rfl, fun s h => ?_⟩
  rw [show get_future_date 738900 (-4000000) =
    .error (.overflowError "date value out of range") from rfl] at h
  exact Except.noConfusion h

/-- Claim C9 (amended): whenever the current date plus `days` stays inside
the supported range (0001-01-01 through 9999-12-31), `get_future_date`
returns that date rendered with `%Y-%m-%d`; for a year of four digits the
rendering is a ten-character `YYYY-MM-DD` string of digits and dashes. -/
theorem get_future_date_spec (nowOrdinal days : Int)
    (h1 : dateMinOrdinal ≤ nowOrdinal + days) (h2 : nowOrdinal + days ≤ dateMaxOrdinal) :
    get_future_date nowOrdinal days =
      .ok (strftime (civilFromOrdinal (nowOrdinal + days)) "%Y-%m-%d") ∧
    (1000 ≤ (civilFromOrdinal (nowOrdinal + days)).year →
      (civilFromOrdinal (nowOrdinal + days)).year ≤ 9999 →
      (strftime (civilFromOrdinal (nowOrdinal + days)) "%Y-%m-%d").data.length = 10 ∧
      (strftime (civilFromOrdinal (nowOrdinal + days)) "%Y-%m-%d").data[4]? = some '-' ∧
      (strftime (civilFromOrdinal (nowOrdinal + days)) "%Y-%m-%d").data[7]? = some '-' ∧
      ∀ c ∈ (strftime (civilFromOrdinal (nowOrdinal + days)) "%Y-%m-%d").data,
        c = '-' ∨ c.isDigit = true) := by
  constructor
  · unfold get_future_date
    dsimp only
    rw [if_neg (by simp only [dateMinOrdinal, dateMaxOrdinal] at h1 h2 ⊢; omega)]
  · intro hy1 hy2
    obtain ⟨hm1, hm2, hd1, hd2⟩ := civil_bounds (nowOrdinal + days)
    have hyr : intDigits (civilFromOrdinal (nowOrdinal + days)).year =
        natDigits (civilFromOrdinal (nowOrdinal + days)).year.toNat := by
      unfold intDigits
      rw [if_neg (by omega)]
    have hyt1 : 1000 ≤ (civilFromOrdinal (nowOrdinal + days)).year.toNat := by omega
    have hyt2 : (civilFromOrdinal (nowOrdinal + days)).year.toNat ≤ 9999 := by omega
    obtain ⟨m1, m2, hm, hm1d, hm2d⟩ := pad2_shape (civilFromOrdinal (nowOrdinal + days)).month
      (by omega)
    obtain ⟨d1, d2, hd, hd1d, hd2d⟩ := pad2_shape (civilFromOrdinal (nowOrdinal + days)).day
      (by omega)
    rw [strftime_ymd, hyr, natDigits4 _ hyt1 hyt2, hm, hd]
    refine ⟨rfl, rfl, rfl, ?_⟩
    intro c hc
    simp only [List.cons_append, List.nil_append, List.mem_cons, List.not_mem_nil,
      or_false] at hc
    rcases hc with rfl | rfl | rfl | rfl | rfl | rfl | rfl | rfl | rfl | rfl
    · exact Or.inr (digChar_isDigit _ (by omega))
    · exact Or.inr (digChar_isDigit _ (by omega))
    · exact Or.inr (digChar_isDigit _ (by omega))
    · exact Or.inr (digChar_isDigit _ (by omega))
    · exact Or.inl rfl
    · exact Or.inr hm1d
    · exact Or.inr hm2d
    · exact Or.inl rfl
    · exact Or.inr hd1d
    · exact Or.inr hd2d

/-- Concrete instances of `get_future_date_spec`: from the date with
ordinal 738900 (2024-01-15), zero days gives the same date and one day
gives the next day. -/
theorem get_future_date_spec_witness :
    (dateMinOrdinal ≤ 738900 + (1 : Int) ∧ 738900 + (1 : Int) ≤ dateMaxOrdinal) ∧
    get_future_date 738900 1 = .ok "2024-01-16" ∧
    get_future_date 738900 0 = .ok "2024-01-15" := by
  refine ⟨by decide, ?_, ?_⟩
  · rw [(get_future_date_spec 738900 1 (by decide) (by decide)).1]
    rfl
  · rw [(get_future_date_spec 738900 0 (by decide) (by decide)).1]
    rfl

/-- The particular instance of claim C7: length 12, at one concrete
generator behaviour. -/
theorem generate_random_string_spec_witness :
    0 < 12 ∧
    ((generate_random_string 12 (fun _ => ⟨0, by decide⟩)).length = 12 ∧
      ∀ c ∈ (generate_random_string 12 (fun _ => ⟨0, by decide⟩)).data,
        (c.isAlpha || c.isDigit) = true) :=
  ⟨by decide, generate_random_string_spec 12 (fun _ => ⟨0, by decide⟩) (by decide)⟩

theorem hexVal_hexDigitChar (d : Nat) (h : d < 16) : hexVal (hexDigitChar d) = some d := by
  interval_cases d <;> decide

theorem hex4Val_hex4 (n : Nat) (h : n < 65536) :
    hex4Val (hexDigitChar (n / 4096 % 16)) (hexDigitChar (n / 256 % 16))
      (hexDigitChar (n / 16 % 16)) (hexDigitChar (n % 16)) = some n := by
  unfold hex4Val
  rw [hexVal_hexDigitChar _ (by omega), hexVal_hexDigitChar _ (by omega),
    hexVal_hexDigitChar _ (by omega), hexVal_hexDigitChar _ (by omega)]
  exact congrArg some (by omega)

theorem char_toNat_valid (c : Char) :
    c.toNat < 55296 ∨ (57343 < c.toNat ∧ c.toNat < 1114112) := by
  have h := c.valid
  unfold UInt32.isValidChar Nat.isValidChar at h
  rcases h with h | ⟨h1, h2⟩
  · left; exact h
  · right; exact ⟨h1, h2⟩

theorem parseStrBody_u (a b c d : Char) (t : List Char) (n : Nat)
    (h : hex4Val a b c d = some n) (hn : n < 55296 ∨ 57344 ≤ n) :
    parseStrBody ('\\' :: 'u' :: a :: b :: c :: d :: t) =
      consFst (Char.ofNat n) (parseStrBody t) := by
  simp only [parseStrBody, h]
  rw [if_pos hn]

theorem parseStrBody_u_pair (a b c d e f g h : Char) (t : List Char) (n m : Nat)
    (hn4 : hex4Val a b c d = some n) (hm4 : hex4Val e f g h = some m)
    (hn : 55296 ≤ n ∧ n < 56320) (hm : 56320 ≤ m ∧ m < 57344) :
    parseStrBody ('\\' :: 'u' :: a :: b :: c :: d :: '\\' :: 'u' :: e :: f :: g :: h :: t) =
      consFst (Char.ofNat (65536 + (n - 55296) * 1024 + (m - 56320))) (parseStrBody t) := by
  simp only [parseStrBody, hn4, hm4]
  rw [if_neg (by omega), if_pos (by omega), if_pos hm]

theorem parseStrBody_plain (c : Char) (t : List Char)
    (h1 : c ≠ '"') (h2 : c ≠ '\\') (h3 : 32 ≤ c.toNat) :
    parseStrBody (c :: t) = consFst c (parseStrBody t) := by
  rw [parseStrBody.eq_def]
  split
  · rename_i heq
    exact absurd heq (by simp)
  · rename_i heq
    rw [List.cons.injEq] at heq
    exact absurd heq.1 h1
  · rename_i heq
    rw [List.cons.injEq] at heq
    exact absurd heq.1 h2
  · rename_i heq
    rw [List.cons.injEq] at heq
    exact absurd heq.1 h2
  · rename_i c2 rest heq
    rw [List.cons.injEq] at heq
    obtain ⟨he1, he2⟩ := heq
    subst he1
    subst he2
    rw [if_pos ⟨h3, h1, h2⟩]

theorem escapeChar_roundtrip (c : Char) (t : List Char) :
    parseStrBody (escapeChar c ++ t) = consFst c (parseStrBody t) := by
  unfold escapeChar
  by_cases h1 : c = '"'
  · subst h1; rw [if_pos rfl]; rfl
  rw [if_neg h1]
  by_cases h2 : c = '\\'
  · subst h2; rw [if_pos rfl]; rfl
  rw [if_neg h2]
  by_cases h3 : c.toNat = 8
  · rw [if_pos h3]
    have hc : Char.ofNat 8 = c := by rw [← h3, Char.ofNat_toNat]
    rw [← hc]; rfl
  rw [if_neg h3]
  by_cases h4 : c.toNat = 9
  · rw [if_pos h4]
    have hc : Char.ofNat 9 = c := by rw [← h4, Char.ofNat_toNat]
    rw [← hc]; rfl
  rw [if_neg h4]
  by_cases h5 : c.toNat = 10
  · rw [if_pos h5]
    have hc : Char.ofNat 10 = c := by rw [← h5, Char.ofNat_toNat]
    rw [← hc]; rfl
  rw [if_neg h5]
  by_cases h6 : c.toNat = 12
  · rw [if_pos h6]
    have hc : Char.ofNat 12 = c := by rw [← h6, Char.ofNat_toNat]
    rw [← hc]; rfl
  rw [if_neg h6]
  by_cases h7 : c.toNat = 13
  · rw [if_pos h7]
    have hc : Char.ofNat 13 = c := by rw [← h7, Char.ofNat_toNat]
    rw [← hc]; rfl
  rw [if_neg h7]
  by_cases h8 : 32 ≤ c.toNat ∧ c.toNat ≤ 126
  · rw [if_pos h8]
    exact parseStrBody_plain c t h1 h2 h8.1
  rw [if_neg h8]
  have hv := char_toNat_valid c
  by_cases h9 : c.toNat < 65536
  · rw [if_pos h9]
    simp only [hex4, List.cons_append, List.nil_append]
    rw [parseStrBody_u _ _ _ _ t c.toNat (hex4Val_hex4 c.toNat h9) (by omega)]
    rw [Char.ofNat_toNat]
  · rw [if_neg h9]
    have hlt : c.toNat < 1114112 := by rcases hv with h | ⟨_, h⟩ <;> omega
    simp only [hex4, List.cons_append, List.nil_append, List.append_assoc]
    rw [parseStrBody_u_pair _ _ _ _ _ _ _ _ t
      (55296 + (c.toNat - 65536) / 1024) (56320 + (c.toNat - 65536) % 1024)
      (hex4Val_hex4 _ (by omega)) (hex4Val_hex4 _ (by omega))
      (by omega) (by omega)]
    have harith : 65536 + (55296 + (c.toNat - 65536) / 1024 - 55296) * 1024 +
        (56320 + (c.toNat - 65536) % 1024 - 56320) = c.toNat := by omega
    rw [harith, Char.ofNat_toNat]

theorem parseStrBody_escape (l t : List Char) :
    parseStrBody ((l.map escapeChar).flatten ++ '"' :: t) = some (l, t) := by
  induction l with
  | nil => rfl
  | cons c cs ih =>
    simp only [List.map_cons, List.flatten_cons, List.append_assoc]
    rw [escapeChar_roundtrip, ih]
    rfl

theorem digChar_toNat (d : Nat) (h : d < 10) : (digChar d).toNat = 48 + d := by
  interval_cases d <;> decide

theorem digChar_props (d : Nat) (h : d < 10) :
    isWsChar (digChar d) = false ∧ digChar d ≠ ']' ∧ digChar d ≠ '}' ∧
    digChar d ≠ 'n' ∧ digChar d ≠ 't' ∧ digChar d ≠ 'f' ∧ digChar d ≠ '"' ∧
    digChar d ≠ '[' ∧ digChar d ≠ '{' ∧ digChar d ≠ '-' := by
  interval_cases d <;> decide

theorem parseDigitsAux_stop (acc : Nat) (t : List Char)
    (h : ∀ c, t.head? = some c → c.isDigit = false) :
    parseDigitsAux acc t = (acc, t) := by
  cases t with
  | nil => rfl
  | cons c rest =>
    unfold parseDigitsAux
    rw [if_neg]
    simp [h c rfl]

theorem natDigits_head_digit (n : Nat) : ∃ d t', d < 10 ∧ natDigits n = digChar d :: t' := by
  induction n using Nat.strong_induction_on with
  | _ n ih =>
    rw [natDigits_eq]
    by_cases h : n < 10
    · rw [if_pos h]
      exact ⟨n, [], h, rfl⟩
    · rw [if_neg h]
      obtain ⟨d, t', hd, ht⟩ := ih (n / 10) (Nat.div_lt_self (by omega) (by omega))
      exact ⟨d, t' ++ [digChar (n % 10)], hd, by rw [ht]; rfl⟩

theorem parseDigitsAux_cons_digit (acc : Nat) (c : Char) (rest : List Char)
    (h : c.isDigit = true) :
    parseDigitsAux acc (c :: rest) = parseDigitsAux (10 * acc + (c.toNat - 48)) rest := by
  simp only [parseDigitsAux]
  rw [if_pos h]

theorem parseDigitsAux_natDigits (m : Nat) : ∀ (acc : Nat) (t : List Char),
    parseDigitsAux acc (natDigits m ++ t) =
      parseDigitsAux (acc * 10 ^ (natDigits m).length + m) t := by
  induction m using Nat.strong_induction_on with
  | _ m ih =>
    intro acc t
    by_cases h : m < 10
    · rw [natDigits_eq, if_pos h]
      show parseDigitsAux acc (digChar m :: t) = _
      rw [parseDigitsAux_cons_digit _ _ _ (digChar_isDigit m h), digChar_toNat m h]
      congr 1
      simp only [List.length_singleton, pow_one]
      omega
    · have hlen : (natDigits m).length = (natDigits (m / 10)).length + 1 := by
        conv_lhs => rw [natDigits_eq, if_neg h]
        simp
      conv_lhs => rw [natDigits_eq, if_neg h, List.append_assoc]
      rw [ih (m / 10) (Nat.div_lt_self (by omega) (by omega)) acc _]
      show parseDigitsAux _ (digChar (m % 10) :: t) = _
      rw [parseDigitsAux_cons_digit _ _ _ (digChar_isDigit _ (by omega)),
        digChar_toNat _ (by omega)]
      congr 1
      rw [hlen, pow_succ, ← mul_assoc]
      omega

theorem parseNatNum_natDigits (n : Nat) (t : List Char)
    (h : ∀ c, t.head? = some c → c.isDigit = false) :
    parseNatNum (natDigits n ++ t) = some (n, t) := by
  have key : parseDigitsAux 0 (natDigits n ++ t) = (n, t) := by
    rw [parseDigitsAux_natDigits n 0 t, Nat.zero_mul, Nat.zero_add]
    exact parseDigitsAux_stop n t h
  obtain ⟨d, t', hd, ht⟩ := natDigits_head_digit n
  rw [ht] at key ⊢
  show parseNatNum (digChar d :: (t' ++ t)) = _
  simp only [parseNatNum]
  rw [if_pos (digChar_isDigit d hd)]
  rw [show ((digChar d :: t') ++ t) = digChar d :: (t' ++ t) from rfl,
    parseDigitsAux_cons_digit _ _ _ (digChar_isDigit d hd)] at key
  rw [Nat.mul_zero, Nat.zero_add] at key
  rw [key]

theorem skipWs_cons_not (c : Char) (t : List Char) (h : isWsChar c = false) :
    skipWs (c :: t) = c :: t := by
  unfold skipWs
  rw [if_neg (by simp [h])]

theorem skipWs_cons_ws (c : Char) (t : List Char) (h : isWsChar c = true) :
    skipWs (c :: t) = skipWs t := by
  simp only [skipWs]
  rw [if_pos h]

theorem skipWs_ws_append (l t : List Char) (h : ∀ c ∈ l, isWsChar c = true) :
    skipWs (l ++ t) = skipWs t := by
  induction l with
  | nil => rfl
  | cons c cs ih =>
    show skipWs (c :: (cs ++ t)) = _
    rw [skipWs_cons_ws _ _ (h c (by simp))]
    exact ih (fun x hx => h x (by simp [hx]))

theorem nspaces_ws (n : Nat) : ∀ c ∈ nspaces n, isWsChar c = true := by
  intro c hc
  have : c = ' ' := List.eq_of_mem_replicate hc
  subst this
  rfl

theorem serVal_head (lvl : Nat) (v : JValue) :
    ∃ c t', serVal lvl v = c :: t' ∧ isWsChar c = false ∧ c ≠ ']' ∧ c ≠ '}' := by
  cases v with
  | null => refine ⟨'n', _, rfl, ?_, ?_, ?_⟩ <;> decide
  | bool b =>
    cases b with
    | true => refine ⟨'t', _, rfl, ?_, ?_, ?_⟩ <;> decide
    | false => refine ⟨'f', _, rfl, ?_, ?_, ?_⟩ <;> decide
  | num n =>
    by_cases h : n < 0
    · refine ⟨'-', natDigits n.natAbs, ?_, by decide, by decide, by decide⟩
      simp only [serVal, intDigits]
      rw [if_pos h]
    · obtain ⟨d, t', hd, ht⟩ := natDigits_head_digit n.toNat
      obtain ⟨p1, p2, p3, -⟩ := digChar_props d hd
      refine ⟨digChar d, t', ?_, p1, p2, p3⟩
      simp only [serVal, intDigits]
      rw [if_neg h, ht]
  | str s => refine ⟨'"', _, rfl, ?_, ?_, ?_⟩ <;> decide
  | arr xs =>
    cases xs with
    | nil => refine ⟨'[', _, rfl, ?_, ?_, ?_⟩ <;> decide
    | cons x xs => refine ⟨'[', _, rfl, ?_, ?_, ?_⟩ <;> decide
  | obj fs =>
    cases fs with
    | nil => refine ⟨'{', _, rfl, ?_, ?_, ?_⟩ <;> decide
    | cons f fs => refine ⟨'{', _, rfl, ?_, ?_, ?_⟩ <;> decide

theorem skipWs_serVal (lvl : Nat) (v : JValue) (t : List Char) :
    skipWs (serVal lvl v ++ t) = serVal lvl v ++ t := by
  obtain ⟨c, t', hc, hws, -, -⟩ := serVal_head lvl v
  rw [hc]
  show skipWs (c :: (t' ++ t)) = _
  exact skipWs_cons_not c _ hws

theorem char_digit_cases (c : Char) (h : c.isDigit = true) :
    48 ≤ c.toNat ∧ c.toNat ≤ 57 := by
  simp [Char.isDigit] at h
  obtain ⟨h1, h2⟩ := h
  exact ⟨h1, h2⟩

theorem parseVal_digit (fuel : Nat) (c : Char) (rest : List Char) (h : c.isDigit = true) :
    parseVal (fuel + 1) (c :: rest) =
      (match parseNatNum (c :: rest) with
       | some (n, r) => some (.num (n : Int), r)
       | Option.none => Option.none) := by
  obtain ⟨h1, h2⟩ := char_digit_cases c h
  have hc : c = Char.ofNat c.toNat := (Char.ofNat_toNat c).symm
  interval_cases hk : c.toNat <;> subst hc <;> rfl

theorem natDigits_length_pos (n : Nat) : 1 ≤ (natDigits n).length := by
  obtain ⟨d, t', -, ht⟩ := natDigits_head_digit n
  rw [ht]
  simp

theorem intDigits_length_pos (n : Int) : 1 ≤ (intDigits n).length := by
  unfold intDigits
  by_cases h : n < 0
  · rw [if_pos h]; simp
  · rw [if_neg h]; exact natDigits_length_pos _

theorem jfuel_le : ∀ n,
    (∀ v : JValue, sizeOf v ≤ n → ∀ lvl, jfuel v ≤ (serVal lvl v).length) ∧
    (∀ xs : List JValue, sizeOf xs ≤ n → ∀ lvl, jfuelL xs ≤ (serItems lvl xs).length + 1) ∧
    (∀ fs : List (String × JValue), sizeOf fs ≤ n → ∀ lvl,
      jfuelF fs ≤ (serFields lvl fs).length + 1) := by
  intro n
  induction n with
  | zero =>
    refine ⟨fun v hv => absurd hv ?_, fun xs hxs => absurd hxs ?_, fun fs hfs => absurd hfs ?_⟩
    · cases v <;> simp
    · cases xs <;> simp
    · cases fs <;> simp
  | succ n ih =>
    refine ⟨fun v hv lvl => ?_, fun xs hxs lvl => ?_, fun fs hfs lvl => ?_⟩
    · cases v with
      | null => simp [jfuel, serVal]
      | bool b => cases b <;> simp [jfuel, serVal]
      | num m => simpa [jfuel, serVal] using intDigits_length_pos m
      | str s => simp [jfuel, serVal, serStr]
      | arr xs =>
        cases xs with
        | nil => simp [jfuel, serVal]
        | cons x xs =>
          have hs : sizeOf (x :: xs) ≤ n := by
            have h' := hv
            simp only [JValue.arr.sizeOf_spec] at h'
            omega
          have hxs := ih.2.1 (x :: xs) hs (lvl + 1)
          simp only [jfuel, serVal]
          simp [List.length_append, nspaces]
          simp [jfuelL] at hxs ⊢
          omega
      | obj fs =>
        cases fs with
        | nil => simp [jfuel, serVal]
        | cons f fs =>
          have hs : sizeOf (f :: fs) ≤ n := by
            have h' := hv
            simp only [JValue.obj.sizeOf_spec] at h'
            omega
          have hfs := ih.2.2 (f :: fs) hs (lvl + 1)
          simp only [jfuel, serVal]
          simp [List.length_append, nspaces]
          simp [jfuelF] at hfs ⊢
          omega
    · cases xs with
      | nil => simp [jfuelL]
      | cons x xs =>
        cases xs with
        | nil =>
          have hx : sizeOf x ≤ n := by simp at hxs; omega
          have h1 := ih.1 x hx lvl
          simp [jfuelL, serItems]
          omega
        | cons y ys =>
          have hx : sizeOf x ≤ n := by simp at hxs; omega
          have hys : sizeOf (y :: ys) ≤ n := by simp at hxs ⊢; omega
          have h1 := ih.1 x hx lvl
          have h2 := ih.2.1 (y :: ys) hys lvl
          simp only [jfuelL, serItems] at h2 ⊢
          simp [List.length_append, nspaces] at h2 ⊢
          omega
    · cases fs with
      | nil => simp [jfuelF]
      | cons f fs =>
        cases fs with
        | nil =>
          have hx : sizeOf f.2 ≤ n := by
            simp at hfs
            cases f
            simp at hfs ⊢
            omega
          have h1 := ih.1 f.2 hx lvl
          simp [jfuelF, serFields, serStr]
          omega
        | cons g gs =>
          have hx : sizeOf f.2 ≤ n := by
            simp at hfs
            cases f
            simp at hfs ⊢
            omega
          have hgs : sizeOf (g :: gs) ≤ n := by simp at hfs ⊢; omega
          have h1 := ih.1 f.2 hx lvl
          have h2 := ih.2.2 (g :: gs) hgs lvl
          simp only [jfuelF, serFields] at h2 ⊢
          simp [List.length_append, nspaces, serStr] at h2 ⊢
          omega

theorem jfuel_pos (v : JValue) : 1 ≤ jfuel v := by
  cases v with
  | arr xs => cases xs <;> simp [jfuel]
  | obj fs => cases fs <;> simp [jfuel]
  | null => simp [jfuel]
  | bool b => simp [jfuel]
  | num n => simp [jfuel]
  | str s => simp [jfuel]

theorem noDigitHead_cons (c : Char) (t : List Char) (h : c.isDigit = false) :
    noDigitHead (c :: t) := by
  intro c' hc'
  rw [List.head?_cons, Option.some.injEq] at hc'
  rw [← hc']
  exact h

theorem ws_not_digit (c : Char) (h : isWsChar c = true) : c.isDigit = false := by
  simp [isWsChar] at h
  rcases h with ((rfl | rfl) | rfl) | rfl <;> decide

theorem noDigitHead_ws_close (ws : List Char) (cl : Char) (rest : List Char)
    (hws : ∀ c ∈ ws, isWsChar c = true) (hcl : cl.isDigit = false) :
    noDigitHead (ws ++ cl :: rest) := by
  cases ws with
  | nil => exact noDigitHead_cons cl rest hcl
  | cons w ws' =>
    show noDigitHead (w :: (ws' ++ cl :: rest))
    exact noDigitHead_cons _ _ (ws_not_digit w (hws w (by simp)))

theorem serItems_cons_head (lvl : Nat) (x : JValue) (xs : List JValue) :
    ∃ u, serItems lvl (x :: xs) = serVal lvl x ++ u := by
  cases xs with
  | nil => exact ⟨[], (List.append_nil _).symm⟩
  | cons y ys =>
    exact ⟨',' :: '\n' :: nspaces (4 * lvl) ++ serItems lvl (y :: ys), by simp [serItems]⟩

theorem skipWs_serItems (lvl : Nat) (x : JValue) (xs : List JValue) (t : List Char) :
    skipWs (serItems lvl (x :: xs) ++ t) = serItems lvl (x :: xs) ++ t := by
  obtain ⟨u, hu⟩ := serItems_cons_head lvl x xs
  rw [hu, List.append_assoc]
  exact skipWs_serVal lvl x (u ++ t)

theorem serFields_cons_head (lvl : Nat) (f : String × JValue) (fs : List (String × JValue)) :
    ∃ u, serFields lvl (f :: fs) = '"' :: u := by
  cases fs with
  | nil =>
    refine ⟨(f.1.data.map escapeChar).flatten ++ ['"'] ++ (':' :: ' ' :: serVal lvl f.2), ?_⟩
    simp [serFields, serStr]
  | cons g gs =>
    refine ⟨(f.1.data.map escapeChar).flatten ++ ['"'] ++ (':' :: ' ' :: serVal lvl f.2 ++
      ',' :: '\n' :: nspaces (4 * lvl) ++ serFields lvl (g :: gs)), ?_⟩
    simp [serFields, serStr]

theorem parse_ser : ∀ fuel : Nat,
    (∀ (v : JValue) (lvl : Nat) (rest : List Char), jfuel v ≤ fuel → noDigitHead rest →
      parseVal fuel (serVal lvl v ++ rest) = some (v, rest)) ∧
    (∀ (x : JValue) (xs : List JValue) (lvl : Nat) (ws rest : List Char),
      jfuelL (x :: xs) ≤ fuel → (∀ c ∈ ws, isWsChar c = true) →
      parseItems fuel (serItems lvl (x :: xs) ++ (ws ++ ']' :: rest)) = some (x :: xs, rest)) ∧
    (∀ (f : String × JValue) (fs : List (String × JValue)) (lvl : Nat) (ws rest : List Char),
      jfuelF (f :: fs) ≤ fuel → (∀ c ∈ ws, isWsChar c = true) →
      parseFields fuel (serFields lvl (f :: fs) ++ (ws ++ '}' :: rest)) = some (f :: fs, rest)) := by
  intro fuel
  induction fuel with
  | zero =>
    refine ⟨fun v lvl rest hfu _ => absurd hfu ?_, fun x xs lvl ws rest hfu _ => absurd hfu ?_,
      fun f fs lvl ws rest hfu _ => absurd hfu ?_⟩
    · have := jfuel_pos v; omega
    · simp [jfuelL]
    · simp [jfuelF]
  | succ fuel ih =>
    refine ⟨fun v lvl rest hfu hnd => ?_, fun x xs lvl ws rest hfu hws => ?_,
      fun f fs lvl ws rest hfu hws => ?_⟩
    · -- parseVal conjunct
      cases v with
      | null => rfl
      | bool b => cases b <;> rfl
      | num m =>
        by_cases hm : m < 0
        · have hser : serVal lvl (.num m) = '-' :: natDigits m.natAbs := by
            simp only [serVal, intDigits]
            rw [if_pos hm]
          rw [hser]
          show parseVal (fuel + 1) ('-' :: (natDigits m.natAbs ++ rest)) = _
          rw [show ∀ s, parseVal (fuel + 1) ('-' :: s) =
              (match parseNatNum s with
               | some (n, r) => some (JValue.num (-(n : Int)), r)
               | Option.none => Option.none) from fun s => rfl]
          rw [parseNatNum_natDigits m.natAbs rest hnd]
          exact congrArg (fun z => some (JValue.num z, rest)) (by omega)
        · have hser : serVal lvl (.num m) = natDigits m.toNat := by
            simp only [serVal, intDigits]
            rw [if_neg hm]
          rw [hser]
          obtain ⟨d, t', hd, ht⟩ := natDigits_head_digit m.toNat
          rw [ht]
          show parseVal (fuel + 1) (digChar d :: (t' ++ rest)) = _
          rw [parseVal_digit fuel _ _ (digChar_isDigit d hd)]
          rw [show digChar d :: (t' ++ rest) = (digChar d :: t') ++ rest from rfl, ← ht]
          rw [parseNatNum_natDigits m.toNat rest hnd]
          exact congrArg (fun z => some (JValue.num z, rest)) (by omega)
      | str s =>
        show parseVal (fuel + 1) (serStr s ++ rest) = _
        rw [show serStr s ++ rest =
          '"' :: ((s.data.map escapeChar).flatten ++ '"' :: rest) by simp [serStr]]
        rw [show ∀ u, parseVal (fuel + 1) ('"' :: u) =
            (match parseStrBody u with
             | some (cs, r) => some (JValue.str ⟨cs⟩, r)
             | Option.none => Option.none) from fun u => rfl]
        rw [parseStrBody_escape]
      | arr xs =>
        cases xs with
        | nil => rfl
        | cons x xs =>
          have hfu' : jfuelL (x :: xs) ≤ fuel := by
            simp only [jfuel] at hfu
            omega
          rw [show serVal lvl (.arr (x :: xs)) ++ rest =
              '[' :: '\n' :: (nspaces (4 * (lvl + 1)) ++
                (serItems (lvl + 1) (x :: xs) ++
                  (('\n' :: nspaces (4 * lvl)) ++ (']' :: rest)))) by
            simp [serVal, List.append_assoc]]
          rw [show ∀ u, parseVal (fuel + 1) ('[' :: u) =
              (match skipWs u with
               | ']' :: r => some (JValue.arr [], r)
               | r =>
                 (match parseItems fuel r with
                  | some (xs, rr) => some (JValue.arr xs, rr)
                  | Option.none => Option.none)) from fun u => rfl]
          rw [skipWs_cons_ws '\n' _ rfl, skipWs_ws_append _ _ (nspaces_ws _),
            skipWs_serItems]
          split
          · rename_i r heq
            obtain ⟨u, hu⟩ := serItems_cons_head (lvl + 1) x xs
            obtain ⟨c, t', hc, -, hnotbr, -⟩ := serVal_head (lvl + 1) x
            rw [hu, hc] at heq
            simp only [List.cons_append, List.cons.injEq] at heq
            exact absurd heq.1 hnotbr
          · rw [ih.2.1 x xs (lvl + 1) ('\n' :: nspaces (4 * lvl)) rest hfu' ?_]
            · intro c hc
              simp only [List.mem_cons] at hc
              rcases hc with rfl | hc
              · rfl
              · exact nspaces_ws _ c hc
      | obj fs =>
        cases fs with
        | nil => rfl
        | cons f fs =>
          have hfu' : jfuelF (f :: fs) ≤ fuel := by
            simp only [jfuel] at hfu
            omega
          rw [show serVal lvl (.obj (f :: fs)) ++ rest =
              '{' :: '\n' :: (nspaces (4 * (lvl + 1)) ++
                (serFields (lvl + 1) (f :: fs) ++
                  (('\n' :: nspaces (4 * lvl)) ++ ('}' :: rest)))) by
            simp [serVal, List.append_assoc]]
          rw [show ∀ u, parseVal (fuel + 1) ('{' :: u) =
              (match skipWs u with
               | '}' :: r => some (JValue.obj [], r)
               | r =>
                 (match parseFields fuel r with
                  | some (fs, rr) => some (JValue.obj fs, rr)
                  | Option.none => Option.none)) from fun u => rfl]
          rw [skipWs_cons_ws '\n' _ rfl, skipWs_ws_append _ _ (nspaces_ws _)]
          obtain ⟨u, hu⟩ := serFields_cons_head (lvl + 1) f fs
          rw [hu, show ('"' :: u) ++ (('\n' :: nspaces (4 * lvl)) ++ ('}' :: rest)) =
            '"' :: (u ++ (('\n' :: nspaces (4 * lvl)) ++ ('}' :: rest))) from rfl,
            skipWs_cons_not '"' _ rfl]
          split
          · rename_i r heq
            simp at heq
          · rw [show ('"' : Char) :: (u ++ (('\n' :: nspaces (4 * lvl)) ++ ('}' :: rest))) =
              ('"' :: u) ++ (('\n' :: nspaces (4 * lvl)) ++ ('}' :: rest)) from rfl, ← hu]
            rw [ih.2.2 f fs (lvl + 1) ('\n' :: nspaces (4 * lvl)) rest hfu' ?_]
            · intro c hc
              simp only [List.mem_cons] at hc
              rcases hc with rfl | hc
              · rfl
              · exact nspaces_ws _ c hc
    · -- parseItems conjunct
      cases xs with
      | nil =>
        have hfu' : jfuel x ≤ fuel := by
          simp only [jfuelL] at hfu
          omega
        simp only [parseItems]
        rw [show serItems lvl [x] = serVal lvl x by simp [serItems]]
        rw [ih.1 x lvl (ws ++ ']' :: rest) hfu'
          (noDigitHead_ws_close ws ']' rest hws (by decide))]
        try dsimp only
        rw [skipWs_ws_append ws _ hws, skipWs_cons_not ']' rest (by decide)]
        rfl
      | cons y ys =>
        have hfu1 : jfuel x ≤ fuel := by
          simp only [jfuelL] at hfu
          omega
        have hfu2 : jfuelL (y :: ys) ≤ fuel := by
          simp only [jfuelL, jfuelL] at hfu ⊢
          omega
        simp only [parseItems]
        rw [show serItems lvl (x :: y :: ys) ++ (ws ++ ']' :: rest) =
            serVal lvl x ++ (',' :: '\n' :: (nspaces (4 * lvl) ++
              (serItems lvl (y :: ys) ++ (ws ++ ']' :: rest)))) by
          simp [serItems, List.append_assoc]]
        rw [ih.1 x lvl _ hfu1 (noDigitHead_cons ',' _ (by decide))]
        show (match parseItems fuel (skipWs ('\n' :: (nspaces (4 * lvl) ++
            (serItems lvl (y :: ys) ++ (ws ++ ']' :: rest))))) with
          | some (xs, rr) => some (x :: xs, rr)
          | Option.none => Option.none) = some (x :: y :: ys, rest)
        rw [skipWs_cons_ws '\n' _ rfl, skipWs_ws_append _ _ (nspaces_ws _),
          skipWs_serItems, ih.2.1 y ys lvl ws rest hfu2 hws]
    · -- parseFields conjunct
      cases fs with
      | nil =>
        have hfu' : jfuel f.2 ≤ fuel := by
          simp only [jfuelF] at hfu
          omega
        rw [show serFields lvl [f] ++ (ws ++ '}' :: rest) =
            '"' :: ((f.1.data.map escapeChar).flatten ++ '"' ::
              (':' :: ' ' :: (serVal lvl f.2 ++ (ws ++ '}' :: rest)))) by
          simp [serFields, serStr, List.append_assoc]]
        simp only [parseFields]
        rw [parseStrBody_escape]
        show (match parseVal fuel (skipWs (' ' :: (serVal lvl f.2 ++ (ws ++ '}' :: rest)))) with
          | Option.none => Option.none
          | some (v, r3) =>
            match skipWs r3 with
            | ',' :: r4 =>
              (match parseFields fuel (skipWs r4) with
               | some (fs2, rr) => some ((⟨f.1.data⟩, v) :: fs2, rr)
               | Option.none => Option.none)
            | '}' :: r4 => some ([(⟨f.1.data⟩, v)], r4)
            | _ => Option.none) = some ([f], rest)
        rw [skipWs_cons_ws ' ' _ rfl, skipWs_serVal,
          ih.1 f.2 lvl (ws ++ '}' :: rest) hfu'
            (noDigitHead_ws_close ws '}' rest hws (by decide))]
        show (match skipWs (ws ++ '}' :: rest) with
          | ',' :: r4 =>
            (match parseFields fuel (skipWs r4) with
             | some (fs2, rr) => some ((⟨f.1.data⟩, f.2) :: fs2, rr)
             | Option.none => Option.none)
          | '}' :: r4 => some ([(⟨f.1.data⟩, f.2)], r4)
          | _ => Option.none) = some ([f], rest)
        rw [skipWs_ws_append ws _ hws, skipWs_cons_not '}' rest (by decide)]
        rfl
      | cons g gs =>
        have hfu1 : jfuel f.2 ≤ fuel := by
          simp only [jfuelF] at hfu
          omega
        have hfu2 : jfuelF (g :: gs) ≤ fuel := by
          simp only [jfuelF] at hfu ⊢
          omega
        rw [show serFields lvl (f :: g :: gs) ++ (ws ++ '}' :: rest) =
            '"' :: ((f.1.data.map escapeChar).flatten ++ '"' ::
              (':' :: ' ' :: (serVal lvl f.2 ++ (',' :: '\n' :: (nspaces (4 * lvl) ++
                (serFields lvl (g :: gs) ++ (ws ++ '}' :: rest))))))) by
          simp [serFields, serStr, List.append_assoc]]
        simp only [parseFields]
        rw [parseStrBody_escape]
        show (match parseVal fuel (skipWs (' ' :: (serVal lvl f.2 ++ (',' :: '\n' ::
            (nspaces (4 * lvl) ++ (serFields lvl (g :: gs) ++ (ws ++ '}' :: rest))))))) with
          | Option.none => Option.none
          | some (v, r3) =>
            match skipWs r3 with
            | ',' :: r4 =>
              (match parseFields fuel (skipWs r4) with
               | some (fs2, rr) => some ((⟨f.1.data⟩, v) :: fs2, rr)
               | Option.none => Option.none)
            | '}' :: r4 => some ([(⟨f.1.data⟩, v)], r4)
            | _ => Option.none) = some (f :: g :: gs, rest)
        rw [skipWs_cons_ws ' ' _ rfl, skipWs_serVal,
          ih.1 f.2 lvl _ hfu1 (noDigitHead_cons ',' _ (by decide))]
        show (match parseFields fuel (skipWs ('\n' :: (nspaces (4 * lvl) ++
            (serFields lvl (g :: gs) ++ (ws ++ '}' :: rest))))) with
          | some (fs2, rr) => some ((⟨f.1.data⟩, f.2) :: fs2, rr)
          | Option.none => Option.none) = some (f :: g :: gs, rest)
        rw [skipWs_cons_ws '\n' _ rfl, skipWs_ws_append _ _ (nspaces_ws _)]
        obtain ⟨u2, hu2⟩ := serFields_cons_head lvl g gs
        rw [hu2, show ('"' :: u2) ++ (ws ++ '}' :: rest) =
          '"' :: (u2 ++ (ws ++ '}' :: rest)) from rfl, skipWs_cons_not '"' _ rfl,
          show ('"' : Char) :: (u2 ++ (ws ++ '}' :: rest)) =
            ('"' :: u2) ++ (ws ++ '}' :: rest) from rfl, ← hu2,
          ih.2.2 g gs lvl ws rest hfu2 hws]

theorem json_roundtrip (v : JValue) : json_loads (json_dumps v) = some v := by
  unfold json_loads json_dumps
  rw [show (⟨serVal 0 v⟩ : String).data = serVal 0 v from rfl,
    show (⟨serVal 0 v⟩ : String).length = (serVal 0 v).length from rfl]
  rw [show skipWs (serVal 0 v) = serVal 0 v by simpa using skipWs_serVal 0 v []]
  have hfu : jfuel v ≤ (serVal 0 v).length + 1 :=
    le_trans ((jfuel_le (sizeOf v)).1 v le_rfl 0) (by omega)
  have hmain := (parse_ser ((serVal 0 v).length + 1)).1 v 0 [] hfu
    (fun c hc => by simp at hc)
  rw [List.append_nil] at hmain
  rw [hmain]
  rfl

/-- Claim C4: writing a dict-faithful JSON-compatible tree with
`write_json` and reading the same path back with `read_json` returns an
equal tree, with nothing logged by the read.  (Trees with floating-point
scalars are outside the embedding; an object of a Python dict always has
distinct keys, which `keysOk` records.) -/
theorem write_read_json_roundtrip (fs : FileSystem) (filePath : String) (v : JValue)
    (h : keysOk v = true) :
    read_json (write_json fs filePath v).1 filePath = (some v, []) := by
  unfold write_json read_json
  dsimp only
  rw [if_pos rfl]
  show (match json_loads (json_dumps v) with
    | some v2 => (some v2, ([] : List LogEntry))
    | Option.none =>
      (Option.none, [⟨LogLevel.error, "Error reading JSON file: parse error"⟩])) = (some v, [])
  rw [json_roundtrip v]

/-- Concrete instance of `write_read_json_roundtrip`, at the sample record
of the source's usage example. -/
theorem write_read_json_roundtrip_witness :
    keysOk (JValue.obj [("name", .str "Helium V2"), ("status", .str "Active")]) = true ∧
    read_json (write_json (fun _ => Option.none) "sample.json"
        (JValue.obj [("name", .str "Helium V2"), ("status", .str "Active")])).1
        "sample.json" =
      (some (JValue.obj [("name", .str "Helium V2"), ("status", .str "Active")]), []) :=
  ⟨rfl, write_read_json_roundtrip _ _ _ rfl⟩

end PyHelper
